import Mathlib

/-! Verification of the pkgdoc package documentation extractor.

The development shallowly embeds the Go source of `pkgdoc` (the variant with
sub-package discovery). File-system access (`ioutil.ReadDir`) is modelled as a
function from paths to listings-or-errors; the external collaborators
(`go/doc`, `go/printer`, `go/parser`, the loader) are modelled from the spec's
collaborator contracts where the claims need them, and each such definition is
marked `Modelled from the spec:` in its doc comment.
-/

namespace Pkgdoc

/-- Go's `error` values as pkgdoc can observe them: a loader failure, a
file-system not-exist error (the case `os.IsNotExist` recognizes), or any
other file-system error (permissions, IO failure, ...). -/
inductive GoError where
  | loadError (msg : String)
  | fsNotExist (path : String)
  | fsOther (msg : String)
deriving DecidableEq, Repr

/-- Predicate `os.IsNotExist`: true exactly on not-exist errors. -/
def osIsNotExist : GoError → Bool
  | .fsNotExist _ => true
  | _ => false

/-- One entry of a directory listing, the part of `os.FileInfo` that
`getSubPackages` and `hasGoFiles` consult: `Name()` and `IsDir()`. -/
structure FileInfo where
  name : String
  isDir : Bool
deriving DecidableEq, Repr

/-- The file system as `ioutil.ReadDir` exposes it: a map from a path to
either the ordered directory listing or an error. -/
def Fs : Type := String → Except GoError (List FileInfo)

/-- Path joining, `filepath.Join` of two components, restricted to the clean
paths the claims exercise. -/
def joinPath (a b : String) : String := a ++ "/" ++ b

/-- Extension of a path, `filepath.Ext`: the suffix of the final path element beginning at its
final dot, or the empty string when the final element has no dot.
Mirrors Go's scan from the end of the string until a dot or a path
separator is found. -/
def filepathExt (s : String) : String :=
  let r := s.data.reverse
  let t := r.takeWhile (fun c => c ≠ '.' && c ≠ '/')
  match r.dropWhile (fun c => c ≠ '.' && c ≠ '/') with
  | c :: _ => if c = '.' then String.mk ('.' :: t.reverse) else ""
  | [] => ""

/-- Source test `hasGoFiles(path, fi)`: list `path`; on any error report `false`;
otherwise report whether some entry's name has extension `.go`. The `fi`
argument is unused, exactly as in the source. -/
def hasGoFiles (fs : Fs) (path : String) (fi : FileInfo) : Bool :=
  match fs path with
  | .error _ => false
  | .ok fis => fis.any (fun fi => filepathExt fi.name = ".go")

/-- Raw documentation text (`type Doc string`). -/
structure Doc where
  raw : String
deriving DecidableEq, Repr

/-- Canonical declaration text for a `Value`/`Function`/`Type` entity. The
AST node handed to the printer collaborator is opaque to pkgdoc; what the
claims observe of it is the token sequence the printer re-emits, so a node
is embedded as its list of whitespace-free tokens. -/
abbrev DeclNode : Type := List (List Char)

/-- The positional table `*token.FileSet`. The canonical renderer's output is
whitespace-normalized and so does not depend on the original file offsets;
the table carries no observable data in this model. -/
structure FileSet where
deriving DecidableEq, Repr

/-- A `Value` represents the documentation for values. -/
structure Value where
  Doc : Doc
  Decl : String
deriving DecidableEq, Repr

/-- A `Function` represents the documentation for functions. -/
structure Function where
  Doc : Doc
  Name : String
  Decl : String
deriving DecidableEq, Repr

/-- A `Type` represents the documentation for types (named `Type'` because
`Type` is reserved in Lean). -/
structure Type' where
  Doc : Doc
  Name : String
  Decl : String
  Constants : List Value
  Variables : List Value
  Functions : List Function
  Methods : List Function
deriving DecidableEq, Repr

/-- A `Package` represents package documentation. -/
structure Package where
  Name : String
  ImportPath : String
  Doc : Doc
  Synopsis : String
  Constants : List Value
  Variables : List Value
  Functions : List Function
  Types : List Type'
  SubPackages : List String
deriving DecidableEq, Repr

/-- The zero value of `Package` returned when loading fails. -/
def Package.zero : Package :=
  { Name := "", ImportPath := "", Doc := ⟨""⟩, Synopsis := "",
    Constants := [], Variables := [], Functions := [], Types := [],
    SubPackages := [] }

/-- The body of the `for _, fi := range fis` loop of `getSubPackages`:
append the name of every directory entry that has Go files. -/
def scanEntries (fs : Fs) (root : String) (fis : List FileInfo)
    (acc : List String) : List String :=
  fis.foldl
    (fun acc fi =>
      if fi.isDir then
        if hasGoFiles fs (joinPath root fi.name) fi then acc ++ [fi.name]
        else acc
      else acc)
    acc

/-- Discovery `getSubPackages(p)`: list `GOPATH/src/<ImportPath>`; on a not-exist
error fall back to `GOROOT/src/<ImportPath>`; on any other error (or an
error at the fallback root) return the package unchanged together with that
error; otherwise append the qualifying directory names to `p.SubPackages`.
The returned pair is (the package after the in-place mutation, the returned
`error`). -/
def getSubPackages (fs : Fs) (gopath goroot : String) (p : Package) :
    Package × Option GoError :=
  let root := joinPath (joinPath gopath "src") p.ImportPath
  match fs root with
  | .error e =>
    if osIsNotExist e then
      let root := joinPath (joinPath goroot "src") p.ImportPath
      match fs root with
      | .error e => (p, some e)
      | .ok fis =>
        ({ p with SubPackages := scanEntries fs root fis p.SubPackages }, none)
    else (p, some e)
  | .ok fis =>
    ({ p with SubPackages := scanEntries fs root fis p.SubPackages }, none)

/-- Modelled from the spec: the canonical rendering collaborator
(`go/printer.Fprint`) is external to the repository. Per §4.2 and the
glossary, its output is the whitespace-normalized source text of the node:
the node's tokens separated by single spaces. -/
def joinTokens : List (List Char) → List Char
  | [] => []
  | [t] => t
  | t :: t' :: ts => t ++ ' ' :: joinTokens (t' :: ts)

/-- Rendering `decl(v, fset)`: render the declaration node `v` to canonical source
text with `printer.Fprint` and return the buffer's contents. -/
def decl (v : DeclNode) (_fset : FileSet) : String :=
  String.mk (joinTokens v)

/-- Modelled from the spec: the parser collaborator's tokenization of source
text (§6, `resolve` / re-parsing for the round-trip property); splits the
text at spaces, keeping the space-free chunks. Splitting step: cut at every
space character. -/
def splitSp : List Char → List (List Char)
  | [] => [[]]
  | c :: cs =>
    if c = ' ' then [] :: splitSp cs
    else
      match splitSp cs with
      | [] => [[c]]
      | t :: ts => (c :: t) :: ts

/-- Modelled from the spec: re-parse canonical declaration text into a
declaration node, i.e. its sequence of whitespace-free tokens. -/
def parseDecl (s : String) : DeclNode :=
  (splitSp s.data).filter (fun t => t ≠ [])

/-- A declaration node as the printer receives it from the parser: tokens
are nonempty and contain no whitespace. -/
def WellFormedDecl (v : DeclNode) : Prop :=
  ∀ t ∈ v, t ≠ [] ∧ ∀ c ∈ t, c ≠ ' '

instance (v : DeclNode) : Decidable (WellFormedDecl v) := by
  unfold WellFormedDecl; infer_instance

/-- Modelled from the spec: the synopsis collaborator (`go/doc.Synopsis`)
is external to the repository. Per §4.4 it extracts the first sentence of
the raw documentation text, a sentence boundary being a period followed by
whitespace or the end of the text; empty input yields empty output. -/
def firstSentence : List Char → List Char
  | [] => []
  | [c] => [c]
  | c :: d :: rest =>
    if c = '.' ∧ (d = ' ' ∨ d = '\n' ∨ d = '\t') then ['.']
    else c :: firstSentence (d :: rest)

/-- Synopsis, `doc.Synopsis` applied to raw documentation text. -/
def synopsis (s : String) : String :=
  String.mk (firstSentence s.data)

/-- Modelled from the spec: the HTML escaping underlying the safe HTML
renderer (`go/doc.ToHTML`, external). Comment text is untrusted content:
`&`, `<` and `>` are replaced by their character references. -/
def escapeChar (c : Char) : List Char :=
  if c = '&' then "&amp;".data
  else if c = '<' then "&lt;".data
  else if c = '>' then "&gt;".data
  else [c]

/-- Escape a whole raw documentation text. -/
def escapeText (s : List Char) : List Char :=
  s.flatMap escapeChar

/-- Modelled from the spec: `Doc.HTML` delegates to the safe HTML renderer
(§4.4): the raw text is emitted as an escaped paragraph, never as live
markup. -/
def Doc.HTML (d : Doc) : String :=
  String.mk ("<p>\n".data ++ escapeText d.raw.data ++ "</p>\n".data)

/-- A raw value group as the `go/doc` extractor hands it over
(`*doc.Value`): doc comment plus declaration node. -/
structure DocValue where
  Doc : String
  Decl : DeclNode

/-- A raw function as the `go/doc` extractor hands it over (`*doc.Func`). -/
structure DocFunc where
  Doc : String
  Name : String
  Decl : DeclNode

/-- A raw type as the `go/doc` extractor hands it over (`*doc.Type`),
with its nested groups. -/
structure DocType where
  Doc : String
  Name : String
  Decl : DeclNode
  Consts : List DocValue
  Vars : List DocValue
  Funcs : List DocFunc
  Methods : List DocFunc

/-- The grouped documentation package built by `doc.New` (`*doc.Package`),
as `New` consumes it. -/
structure DocPackage where
  Name : String
  ImportPath : String
  Doc : String
  Consts : List DocValue
  Vars : List DocValue
  Funcs : List DocFunc
  Types : List DocType

/-- Normalization `newValue`: normalize one raw value group. -/
def newValue (v : DocValue) (fset : FileSet) : Value :=
  { Doc := ⟨v.Doc⟩, Decl := decl v.Decl fset }

/-- Normalization `pkgValues`: normalize a list of raw value groups, element by element
into a result of the same length. -/
def pkgValues (vs : List DocValue) (fset : FileSet) : List Value :=
  vs.map (fun v => newValue v fset)

/-- Normalization `newFunction`: normalize one raw function. -/
def newFunction (f : DocFunc) (fset : FileSet) : Function :=
  { Doc := ⟨f.Doc⟩, Name := f.Name, Decl := decl f.Decl fset }

/-- Normalization `pkgFunctions`: normalize a list of raw functions, element by element
into a result of the same length. -/
def pkgFunctions (fs : List DocFunc) (fset : FileSet) : List Function :=
  fs.map (fun f => newFunction f fset)

/-- Normalization `newType`: normalize one raw type together with its nested groups. -/
def newType (t : DocType) (fset : FileSet) : Type' :=
  { Doc := ⟨t.Doc⟩, Name := t.Name, Decl := decl t.Decl fset,
    Constants := pkgValues t.Consts fset,
    Variables := pkgValues t.Vars fset,
    Functions := pkgFunctions t.Funcs fset,
    Methods := pkgFunctions t.Methods fset }

/-- Normalization `pkgTypes`: normalize a list of raw types, element by element into a
result of the same length. -/
def pkgTypes (ts : List DocType) (fset : FileSet) : List Type' :=
  ts.map (fun t => newType t fset)

/-- The `pdoc` record literal of `New` (lines 55-65): the Package model
before sub-package discovery, with `SubPackages` initialized empty. -/
def buildModel (dpkg : DocPackage) (fset : FileSet) : Package :=
  { Name := dpkg.Name,
    ImportPath := dpkg.ImportPath,
    Doc := ⟨dpkg.Doc⟩,
    Synopsis := synopsis dpkg.Doc,
    Constants := pkgValues dpkg.Consts fset,
    Variables := pkgValues dpkg.Vars fset,
    Functions := pkgFunctions dpkg.Funcs fset,
    Types := pkgTypes dpkg.Types fset,
    SubPackages := [] }

/-- Entry point `New(name)`: run the loader; on a load error return the zero `Package`
with that error; otherwise build the model from the grouped documentation
and run sub-package discovery, returning the (possibly partial) model and
the discovery error, if any. The loader collaborator's outcome for the
requested import path is the `load` argument. -/
def New (load : Except GoError (DocPackage × FileSet)) (fs : Fs)
    (gopath goroot : String) : Package × Option GoError :=
  match load with
  | .error e => (Package.zero, some e)
  | .ok (dpkg, fset) =>
    let pdoc := buildModel dpkg fset
    let r := getSubPackages fs gopath goroot pdoc
    (r.1, r.2)

/-! Concrete file systems and packages used to instantiate the theorems. -/

/-- A package whose import path is `ip`, as discovery receives it. -/
def pIp : Package := { Package.zero with Name := "ip", ImportPath := "ip" }

/-- A file system whose primary root `gp/src/ip` holds one directory `A`,
and `A` holds a single subdirectory named `sub.go` (no files at all). -/
def fsA : Fs := fun path =>
  if path = "gp/src/ip" then .ok [⟨"A", true⟩]
  else if path = "gp/src/ip/A" then .ok [⟨"sub.go", true⟩]
  else .error (.fsNotExist path)

/-- A file system where the primary root does not exist and the secondary
root `gr/src/ip` holds one directory `B` containing a Go source file. -/
def fsB : Fs := fun path =>
  if path = "gr/src/ip" then .ok [⟨"B", true⟩]
  else if path = "gr/src/ip/B" then .ok [⟨"b.go", false⟩]
  else .error (.fsNotExist path)

/-- A file system where no directory exists at all. -/
def fsC : Fs := fun path => .error (.fsNotExist path)

/-- A file system where listing the primary root fails with a permission
error while every other directory (the secondary root included) lists
fine and is empty. -/
def fsD : Fs := fun path =>
  if path = "gp/src/ip" then .error (.fsOther "permission denied")
  else .ok []

/-- A file system whose primary root holds one directory `A`, listing any
other directory fails with a permission error. -/
def fsE : Fs := fun path =>
  if path = "gp/src/ip" then .ok [⟨"A", true⟩]
  else .error (.fsOther "permission denied")

/-- A concrete declaration node: tokens of `func Foo() string`. -/
def vDecl : DeclNode := ["func".data, "Foo()".data, "string".data]

/-- Scanner used to reason about rendered HTML: does the character list
contain a `<` immediately followed by an `s` (the start of a `<script>`
tag)? -/
def hasLtS : List Char → Bool
  | [] => false
  | [_] => false
  | a :: b :: rest => (a = '<' && b = 's') || hasLtS (b :: rest)

/-! Helper lemmas about sub-package discovery. -/

/-- When the primary root lists successfully, discovery scans it. -/
lemma getSubPackages_ok (fs : Fs) (gopath goroot : String) (p : Package)
    (fis : List FileInfo)
    (h : fs (joinPath (joinPath gopath "src") p.ImportPath) = .ok fis) :
    getSubPackages fs gopath goroot p =
      ({ p with SubPackages := (scanEntries fs
          (joinPath (joinPath gopath "src") p.ImportPath) fis p.SubPackages) },
        none) := by
  simp only [getSubPackages, h]

/-- When the primary root does not exist and the secondary root lists
successfully, discovery scans the secondary root. -/
lemma getSubPackages_fallback_ok (fs : Fs) (gopath goroot : String) (p : Package)
    (e : GoError) (fis : List FileInfo)
    (h1 : fs (joinPath (joinPath gopath "src") p.ImportPath) = .error e)
    (h2 : osIsNotExist e = true)
    (h3 : fs (joinPath (joinPath goroot "src") p.ImportPath) = .ok fis) :
    getSubPackages fs gopath goroot p =
      ({ p with SubPackages := (scanEntries fs
          (joinPath (joinPath goroot "src") p.ImportPath) fis p.SubPackages) },
        none) := by
  simp only [getSubPackages, h1, h2, if_true, h3]

/-- When the primary root does not exist and the secondary root fails too,
discovery returns the package unchanged with the secondary error. -/
lemma getSubPackages_fallback_err (fs : Fs) (gopath goroot : String) (p : Package)
    (e e2 : GoError)
    (h1 : fs (joinPath (joinPath gopath "src") p.ImportPath) = .error e)
    (h2 : osIsNotExist e = true)
    (h3 : fs (joinPath (joinPath goroot "src") p.ImportPath) = .error e2) :
    getSubPackages fs gopath goroot p = (p, some e2) := by
  simp only [getSubPackages, h1, h2, if_true, h3]

/-- When listing the primary root fails with anything but a not-exist error,
discovery returns the package unchanged with that error. -/
lemma getSubPackages_other_err (fs : Fs) (gopath goroot : String) (p : Package)
    (e : GoError)
    (h1 : fs (joinPath (joinPath gopath "src") p.ImportPath) = .error e)
    (h2 : osIsNotExist e = false) :
    getSubPackages fs gopath goroot p = (p, some e) := by
  simp only [getSubPackages, h1, h2, Bool.false_eq_true, if_false]

/-- The loop of `getSubPackages` appends exactly the names of the directory
entries that have Go files. -/
lemma scanEntries_eq (fs : Fs) (root : String) (fis : List FileInfo)
    (acc : List String) :
    scanEntries fs root fis acc =
      acc ++ (fis.filter
        (fun fi => fi.isDir && hasGoFiles fs (joinPath root fi.name) fi)).map
          (fun fi => fi.name) := by
  induction fis generalizing acc with
  | nil => simp [scanEntries]
  | cons fi fis ih =>
    have hstep : scanEntries fs root (fi :: fis) acc =
        scanEntries fs root fis
          (if fi.isDir then
            if hasGoFiles fs (joinPath root fi.name) fi then acc ++ [fi.name]
            else acc
          else acc) := rfl
    rw [hstep, ih]
    by_cases hd : fi.isDir <;>
      by_cases hg : hasGoFiles fs (joinPath root fi.name) fi <;>
        simp [hd, hg, List.filter_cons]

/-- The package returned by discovery differs from the input at most in its
`SubPackages` field. -/
lemma getSubPackages_fst_shape (fs : Fs) (gopath goroot : String) (p : Package) :
    ∃ sub, (getSubPackages fs gopath goroot p).1 = { p with SubPackages := sub } := by
  cases h1 : fs (joinPath (joinPath gopath "src") p.ImportPath) with
  | ok fis =>
    refine ⟨scanEntries fs (joinPath (joinPath gopath "src") p.ImportPath) fis
      p.SubPackages, ?_⟩
    rw [getSubPackages_ok fs gopath goroot p fis h1]
  | error e =>
    cases h2 : osIsNotExist e with
    | false => rw [getSubPackages_other_err fs gopath goroot p e h1 h2]; exact ⟨p.SubPackages, rfl⟩
    | true =>
      cases h3 : fs (joinPath (joinPath goroot "src") p.ImportPath) with
      | ok fis =>
        refine ⟨scanEntries fs (joinPath (joinPath goroot "src") p.ImportPath)
          fis p.SubPackages, ?_⟩
        rw [getSubPackages_fallback_ok fs gopath goroot p e fis h1 h2 h3]
      | error e2 =>
        rw [getSubPackages_fallback_err fs gopath goroot p e e2 h1 h2 h3]
        exact ⟨p.SubPackages, rfl⟩

/-- When discovery reports an error, the package comes back unchanged. -/
lemma getSubPackages_fst_of_err (fs : Fs) (gopath goroot : String) (p : Package)
    (e : GoError) (h : (getSubPackages fs gopath goroot p).2 = some e) :
    (getSubPackages fs gopath goroot p).1 = p := by
  cases h1 : fs (joinPath (joinPath gopath "src") p.ImportPath) with
  | ok fis => rw [getSubPackages_ok fs gopath goroot p fis h1] at h; cases h
  | error e1 =>
    cases h2 : osIsNotExist e1 with
    | false => rw [getSubPackages_other_err fs gopath goroot p e1 h1 h2]
    | true =>
      cases h3 : fs (joinPath (joinPath goroot "src") p.ImportPath) with
      | ok fis =>
        rw [getSubPackages_fallback_ok fs gopath goroot p e1 fis h1 h2 h3] at h
        cases h
      | error e2 =>
        rw [getSubPackages_fallback_err fs gopath goroot p e1 e2 h1 h2 h3]

/-! Claim theorems about sub-package discovery control flow. -/

/-- C10: for every package and file-system state, `getSubPackages` modifies
only the `SubPackages` field; `Name`, `ImportPath`, `Doc`, `Synopsis`,
`Constants`, `Variables`, `Functions` and `Types` come back unchanged,
whether discovery succeeds or returns an error. -/
theorem getSubPackages_frame (fs : Fs) (gopath goroot : String) (p : Package) :
    (getSubPackages fs gopath goroot p).1.Name = p.Name ∧
    (getSubPackages fs gopath goroot p).1.ImportPath = p.ImportPath ∧
    (getSubPackages fs gopath goroot p).1.Doc = p.Doc ∧
    (getSubPackages fs gopath goroot p).1.Synopsis = p.Synopsis ∧
    (getSubPackages fs gopath goroot p).1.Constants = p.Constants ∧
    (getSubPackages fs gopath goroot p).1.Variables = p.Variables ∧
    (getSubPackages fs gopath goroot p).1.Functions = p.Functions ∧
    (getSubPackages fs gopath goroot p).1.Types = p.Types := by
  obtain ⟨sub, h⟩ := getSubPackages_fst_shape fs gopath goroot p
  rw [h]
  exact ⟨rfl, rfl, rfl, rfl, rfl, rfl, rfl, rfl⟩

/-- C9: when listing the primary root fails with an error other than
non-existence, `getSubPackages` returns that error at once, for every file
system — in particular the secondary root is never consulted, whatever its
listing would have been. -/
theorem primary_error_short_circuits (fs : Fs) (gopath goroot : String)
    (p : Package) (e : GoError)
    (h1 : fs (joinPath (joinPath gopath "src") p.ImportPath) = .error e)
    (h2 : osIsNotExist e = false) :
    getSubPackages fs gopath goroot p = (p, some e) :=
  getSubPackages_other_err fs gopath goroot p e h1 h2

/-- Witness for C9: a permission error at the primary root `gp/src/ip` is
returned as is, although the secondary root `gr/src/ip` is listable. -/
theorem primary_error_short_circuits_witness :
    getSubPackages fsD "gp" "gr" pIp = (pIp, some (.fsOther "permission denied")) ∧
    fsD "gr/src/ip" = .ok [] :=
  ⟨primary_error_short_circuits fsD "gp" "gr" pIp (.fsOther "permission denied")
    rfl rfl, rfl⟩

/-- C3: discovery first lists the primary root `GOPATH/src/<ImportPath>`:
when that succeeds the primary root is scanned; when it does not exist the
secondary root `GOROOT/src/<ImportPath>` is listed instead; and when the
secondary root cannot be listed either, the underlying listing error is
returned to the caller. -/
theorem getSubPackages_root_fallback (fs : Fs) (gopath goroot : String)
    (p : Package) :
    (∀ fis, fs (joinPath (joinPath gopath "src") p.ImportPath) = .ok fis →
      getSubPackages fs gopath goroot p =
        ({ p with SubPackages := (scanEntries fs
            (joinPath (joinPath gopath "src") p.ImportPath) fis p.SubPackages) },
          none)) ∧
    (∀ e, fs (joinPath (joinPath gopath "src") p.ImportPath) = .error e →
      osIsNotExist e = true →
      (∀ fis, fs (joinPath (joinPath goroot "src") p.ImportPath) = .ok fis →
        getSubPackages fs gopath goroot p =
          ({ p with SubPackages := (scanEntries fs
              (joinPath (joinPath goroot "src") p.ImportPath) fis p.SubPackages) },
            none)) ∧
      (∀ e2, fs (joinPath (joinPath goroot "src") p.ImportPath) = .error e2 →
        getSubPackages fs gopath goroot p = (p, some e2))) :=
  ⟨fun fis h => getSubPackages_ok fs gopath goroot p fis h,
   fun e h1 h2 =>
    ⟨fun fis h3 => getSubPackages_fallback_ok fs gopath goroot p e fis h1 h2 h3,
     fun e2 h3 => getSubPackages_fallback_err fs gopath goroot p e e2 h1 h2 h3⟩⟩

/-- Witness for C3: the primary root is scanned when it lists (`fsA`); the
secondary root is scanned when only it exists (`fsB`); the secondary listing
error is returned when neither exists (`fsC`). -/
theorem getSubPackages_root_fallback_witness :
    getSubPackages fsA "gp" "gr" pIp =
      ({ pIp with SubPackages := (scanEntries fsA "gp/src/ip" [⟨"A", true⟩] []) },
        none) ∧
    getSubPackages fsB "gp" "gr" pIp =
      ({ pIp with SubPackages := (scanEntries fsB "gr/src/ip" [⟨"B", true⟩] []) },
        none) ∧
    getSubPackages fsC "gp" "gr" pIp =
      (pIp, some (.fsNotExist "gr/src/ip")) :=
  ⟨(getSubPackages_root_fallback fsA "gp" "gr" pIp).1 [⟨"A", true⟩] rfl,
   ((getSubPackages_root_fallback fsB "gp" "gr" pIp).2 (.fsNotExist "gp/src/ip")
      rfl rfl).1 [⟨"B", true⟩] rfl,
   ((getSubPackages_root_fallback fsC "gp" "gr" pIp).2 (.fsNotExist "gp/src/ip")
      rfl rfl).2 (.fsNotExist "gr/src/ip") rfl⟩

/-- C8: a failure to list a subdirectory during the scan is not surfaced:
`hasGoFiles` reports `false` for it, discovery still returns no error, and
the scan of the root's entries completes, keeping exactly the entries that
are directories with Go files. -/
theorem subdir_listing_error_not_surfaced (fs : Fs) (gopath goroot : String)
    (p : Package) (fis : List FileInfo) (path : String) (fi : FileInfo)
    (e : GoError)
    (hroot : fs (joinPath (joinPath gopath "src") p.ImportPath) = .ok fis)
    (hsub : fs path = .error e) :
    hasGoFiles fs path fi = false ∧
    (getSubPackages fs gopath goroot p).2 = none ∧
    (getSubPackages fs gopath goroot p).1.SubPackages =
      p.SubPackages ++ (fis.filter (fun fi => fi.isDir &&
        hasGoFiles fs (joinPath (joinPath (joinPath gopath "src") p.ImportPath)
          fi.name) fi)).map (fun fi => fi.name) := by
  refine ⟨?_, ?_, ?_⟩
  · simp only [hasGoFiles, hsub]
  · rw [getSubPackages_ok fs gopath goroot p fis hroot]
  · rw [getSubPackages_ok fs gopath goroot p fis hroot]
    exact scanEntries_eq fs _ fis p.SubPackages

/-- Witness for C8: under `fsE` the root `gp/src/ip` holds one directory
`A` whose own listing fails with a permission error; `A` is treated as
having no Go files, no error is surfaced, and no sub-package is recorded. -/
theorem subdir_listing_error_not_surfaced_witness :
    hasGoFiles fsE "gp/src/ip/A" ⟨"A", true⟩ = false ∧
    (getSubPackages fsE "gp" "gr" pIp).2 = none ∧
    (getSubPackages fsE "gp" "gr" pIp).1.SubPackages = [] := by
  have h := subdir_listing_error_not_surfaced fsE "gp" "gr" pIp [⟨"A", true⟩]
    "gp/src/ip/A" ⟨"A", true⟩ (.fsOther "permission denied") rfl rfl
  refine ⟨h.1, h.2.1, ?_⟩
  rw [h.2.2]
  rfl

/-- C2: `New` has exactly three outcomes: a load error comes back with the
zero `Package`; a successful load followed by a discovery error comes back
with the already-built model (its declaration fields populated by
`buildModel`) and the discovery error; otherwise the fully populated model
comes back with no error. -/
theorem New_three_outcomes (load : Except GoError (DocPackage × FileSet))
    (fs : Fs) (gopath goroot : String) :
    (∃ e, load = .error e ∧ New load fs gopath goroot = (Package.zero, some e)) ∨
    (∃ dpkg fset e, load = .ok (dpkg, fset) ∧
      (getSubPackages fs gopath goroot (buildModel dpkg fset)).2 = some e ∧
      New load fs gopath goroot = (buildModel dpkg fset, some e)) ∨
    (∃ dpkg fset, load = .ok (dpkg, fset) ∧
      (getSubPackages fs gopath goroot (buildModel dpkg fset)).2 = none ∧
      New load fs gopath goroot =
        ((getSubPackages fs gopath goroot (buildModel dpkg fset)).1, none)) := by
  rcases load with e | ⟨dpkg, fset⟩
  · exact Or.inl ⟨e, rfl, rfl⟩
  · cases h : (getSubPackages fs gopath goroot (buildModel dpkg fset)).2 with
    | none =>
      refine Or.inr (Or.inr ⟨dpkg, fset, rfl, h, ?_⟩)
      show ((getSubPackages fs gopath goroot (buildModel dpkg fset)).1,
        (getSubPackages fs gopath goroot (buildModel dpkg fset)).2) = _
      rw [h]
    | some e =>
      refine Or.inr (Or.inl ⟨dpkg, fset, e, rfl, h, ?_⟩)
      have hf := getSubPackages_fst_of_err fs gopath goroot (buildModel dpkg fset) e h
      show ((getSubPackages fs gopath goroot (buildModel dpkg fset)).1,
        (getSubPackages fs gopath goroot (buildModel dpkg fset)).2) = _
      rw [h, hf]

/-! Claim theorems about which entries become sub-packages. -/

/-- The extension is `".go"` exactly for the names that end in `".go"`. -/
lemma filepathExt_go_iff (s : String) :
    filepathExt s = ".go" ↔ ['.', 'g', 'o'] <:+ s.data := by
  constructor
  · intro h
    simp only [filepathExt] at h
    split at h
    case h_2 => exact absurd h (by decide)
    case h_1 c rest hd =>
      by_cases hc : c = '.'
      · rw [if_pos hc] at h
        have hl : ('.' :: (s.data.reverse.takeWhile
            (fun c => c ≠ '.' && c ≠ '/')).reverse) = ['.', 'g', 'o'] :=
          congrArg String.data h
        have ht : (s.data.reverse.takeWhile
            (fun c => c ≠ '.' && c ≠ '/')) = ['o', 'g'] := by
          have h2 : (s.data.reverse.takeWhile
              (fun c => c ≠ '.' && c ≠ '/')).reverse = ['g', 'o'] := by
            injection hl
          rw [← List.reverse_reverse (s.data.reverse.takeWhile
            (fun c => c ≠ '.' && c ≠ '/')), h2]
          rfl
        have hr : s.data.reverse = 'o' :: 'g' :: '.' :: rest := by
          have := List.takeWhile_append_dropWhile
            (p := fun c => c ≠ '.' && c ≠ '/') (l := s.data.reverse)
          rw [ht, hd, hc] at this
          exact this.symm
        refine ⟨rest.reverse, ?_⟩
        have : s.data = ('o' :: 'g' :: '.' :: rest).reverse := by
          rw [← hr, List.reverse_reverse]
        rw [this]
        simp
      · rw [if_neg hc] at h; exact absurd h (by decide)
  · rintro ⟨pre, hpre⟩
    simp only [filepathExt]
    have hr : s.data.reverse = 'o' :: 'g' :: '.' :: pre.reverse := by
      rw [← hpre]
      simp
    rw [hr]
    rfl

/-- Test `hasGoFiles` holds exactly when the directory's listing succeeds and
contains an entry (of any kind) with extension `.go`. -/
lemma hasGoFiles_true_iff (fs : Fs) (path : String) (fi : FileInfo) :
    hasGoFiles fs path fi = true ↔
      ∃ sub, fs path = .ok sub ∧ ∃ f ∈ sub, filepathExt f.name = ".go" := by
  simp only [hasGoFiles]
  cases h : fs path with
  | error e => simp
  | ok fis => simp [List.any_eq_true]

/-- C1 counterexample: under `fsA` the root `gp/src/ip` lists one directory
`A` whose only entry is itself a directory named `sub.go` — `A` directly
contains no file whose name ends in `.go`, yet its name is recorded in
`SubPackages`. -/
theorem subPackages_records_dir_without_go_file :
    fsA "gp/src/ip" = .ok [⟨"A", true⟩] ∧
    fsA "gp/src/ip/A" = .ok [⟨"sub.go", true⟩] ∧
    (¬ ∃ f ∈ [FileInfo.mk "sub.go" true],
      f.isDir = false ∧ ['.', 'g', 'o'] <:+ f.name.data) ∧
    "A" ∈ (getSubPackages fsA "gp" "gr" pIp).1.SubPackages := by
  refine ⟨rfl, rfl, ?_, ?_⟩ <;> decide

/-- C1 as amended: a name is recorded in `SubPackages` by a scan of the
resolved root exactly when it was already present or the root lists a
directory entry of that name whose own listing succeeds and contains at
least one entry — file or directory — whose name ends in `.go`; the bare
directory name is what is recorded. -/
theorem subPackages_mem_iff_entry_with_go_extension (fs : Fs)
    (gopath goroot : String) (p : Package) (fis : List FileInfo)
    (h : fs (joinPath (joinPath gopath "src") p.ImportPath) = .ok fis)
    (name : String) :
    name ∈ (getSubPackages fs gopath goroot p).1.SubPackages ↔
      name ∈ p.SubPackages ∨ ∃ fi ∈ fis, fi.name = name ∧ fi.isDir = true ∧
        ∃ sub, fs (joinPath (joinPath (joinPath gopath "src") p.ImportPath)
          fi.name) = .ok sub ∧
          ∃ f ∈ sub, ['.', 'g', 'o'] <:+ f.name.data := by
  rw [getSubPackages_ok fs gopath goroot p fis h]
  show name ∈ scanEntries fs _ fis p.SubPackages ↔ _
  rw [scanEntries_eq, List.mem_append]
  constructor
  · rintro (hp | hm)
    · exact Or.inl hp
    · refine Or.inr ?_
      rw [List.mem_map] at hm
      obtain ⟨fi, hfi, hname⟩ := hm
      rw [List.mem_filter] at hfi
      obtain ⟨hmem, hcond⟩ := hfi
      rw [Bool.and_eq_true] at hcond
      obtain ⟨hdir, hgo⟩ := hcond
      rw [hasGoFiles_true_iff] at hgo
      obtain ⟨sub, hsub, f, hf, hext⟩ := hgo
      rw [filepathExt_go_iff] at hext
      exact ⟨fi, hmem, hname, hdir, sub, hsub, f, hf, hext⟩
  · rintro (hp | ⟨fi, hmem, hname, hdir, sub, hsub, f, hf, hext⟩)
    · exact Or.inl hp
    · refine Or.inr ?_
      rw [List.mem_map]
      refine ⟨fi, ?_, hname⟩
      rw [List.mem_filter]
      refine ⟨hmem, ?_⟩
      rw [Bool.and_eq_true, hasGoFiles_true_iff]
      exact ⟨hdir, sub, hsub, f, hf, (filepathExt_go_iff f.name).mpr hext⟩

/-- Witness for the amended C1: under `fsA`, the directory `A` (whose only
entry has extension `.go`) is recorded. -/
theorem subPackages_mem_iff_entry_with_go_extension_witness :
    "A" ∈ (getSubPackages fsA "gp" "gr" pIp).1.SubPackages ↔
      "A" ∈ pIp.SubPackages ∨ ∃ fi ∈ [FileInfo.mk "A" true],
        fi.name = "A" ∧ fi.isDir = true ∧
        ∃ sub, fsA (joinPath (joinPath (joinPath "gp" "src") pIp.ImportPath)
          fi.name) = .ok sub ∧
          ∃ f ∈ sub, ['.', 'g', 'o'] <:+ f.name.data :=
  subPackages_mem_iff_entry_with_go_extension fsA "gp" "gr" pIp
    [⟨"A", true⟩] rfl "A"

/-! Claim theorems about model normalization. -/

/-- C6: normalization preserves length and order: the `Constants`,
`Variables`, `Functions` and `Types` sequences of the built model have the
same length as the raw extractor output, the i-th entity is built from the
i-th raw declaration, and likewise for every `Type`'s nested sequences. -/
theorem normalization_preserves_length_and_order (dpkg : DocPackage)
    (t : DocType) (fset : FileSet) :
    ((buildModel dpkg fset).Constants.length = dpkg.Consts.length ∧
      ∀ i : Nat, (buildModel dpkg fset).Constants[i]? =
        (dpkg.Consts[i]?).map (fun v => newValue v fset)) ∧
    ((buildModel dpkg fset).Variables.length = dpkg.Vars.length ∧
      ∀ i : Nat, (buildModel dpkg fset).Variables[i]? =
        (dpkg.Vars[i]?).map (fun v => newValue v fset)) ∧
    ((buildModel dpkg fset).Functions.length = dpkg.Funcs.length ∧
      ∀ i : Nat, (buildModel dpkg fset).Functions[i]? =
        (dpkg.Funcs[i]?).map (fun f => newFunction f fset)) ∧
    ((buildModel dpkg fset).Types.length = dpkg.Types.length ∧
      ∀ i : Nat, (buildModel dpkg fset).Types[i]? =
        (dpkg.Types[i]?).map (fun tt => newType tt fset)) ∧
    ((newType t fset).Constants.length = t.Consts.length ∧
      (newType t fset).Variables.length = t.Vars.length ∧
      (newType t fset).Functions.length = t.Funcs.length ∧
      (newType t fset).Methods.length = t.Methods.length ∧
      ∀ i : Nat,
        (newType t fset).Constants[i]? =
          (t.Consts[i]?).map (fun v => newValue v fset) ∧
        (newType t fset).Variables[i]? =
          (t.Vars[i]?).map (fun v => newValue v fset) ∧
        (newType t fset).Functions[i]? =
          (t.Funcs[i]?).map (fun f => newFunction f fset) ∧
        (newType t fset).Methods[i]? =
          (t.Methods[i]?).map (fun f => newFunction f fset)) := by
  refine ⟨⟨?_, fun i => ?_⟩, ⟨?_, fun i => ?_⟩, ⟨?_, fun i => ?_⟩,
    ⟨?_, fun i => ?_⟩, ?_, ?_, ?_, ?_, fun i => ⟨?_, ?_, ?_, ?_⟩⟩ <;>
    simp [buildModel, pkgValues, pkgFunctions, pkgTypes, newType,
      List.getElem?_map, List.length_map]

/-! Claim theorems about the doc text renderer. -/

/-- C4: synopsis extraction returns the first sentence of the raw
documentation text: `"Foo does X. It also does Y."` yields `"Foo does X."`,
and the empty text yields the empty text. -/
theorem synopsis_first_sentence :
    synopsis "Foo does X. It also does Y." = "Foo does X." ∧
    synopsis "" = "" :=
  ⟨rfl, rfl⟩

/-- The character `<` never occurs in an escape sequence. -/
lemma lt_not_mem_escapeChar (c : Char) : '<' ∉ escapeChar c := by
  by_cases h1 : c = '&'
  · subst h1; decide
  · by_cases h2 : c = '<'
    · subst h2; decide
    · by_cases h3 : c = '>'
      · subst h3; decide
      · intro hmem
        simp [escapeChar, h1, h2, h3] at hmem
        exact h2 hmem.symm

/-- The character `>` never occurs in an escape sequence. -/
lemma gt_not_mem_escapeChar (c : Char) : '>' ∉ escapeChar c := by
  by_cases h1 : c = '&'
  · subst h1; decide
  · by_cases h2 : c = '<'
    · subst h2; decide
    · by_cases h3 : c = '>'
      · subst h3; decide
      · intro hmem
        simp [escapeChar, h1, h2, h3] at hmem
        exact h3 hmem.symm

/-- Escaped text contains no `<`. -/
lemma lt_not_mem_escapeText (s : List Char) : '<' ∉ escapeText s := by
  simp only [escapeText, List.mem_flatMap]
  rintro ⟨c, _, hmem⟩
  exact lt_not_mem_escapeChar c hmem

/-- Escaped text contains no `>`. -/
lemma gt_not_mem_escapeText (s : List Char) : '>' ∉ escapeText s := by
  simp only [escapeText, List.mem_flatMap]
  rintro ⟨c, _, hmem⟩
  exact gt_not_mem_escapeChar c hmem

/-- Prepending a character other than `<` does not change the scan. -/
lemma hasLtS_cons (a : Char) (xs : List Char) (h : a ≠ '<') :
    hasLtS (a :: xs) = hasLtS xs := by
  cases xs with
  | nil => rfl
  | cons b r =>
    show ((a = '<' && b = 's') || hasLtS (b :: r)) = hasLtS (b :: r)
    simp [h]

/-- A `<`-free block before the rest does not change the scan. -/
lemma hasLtS_append (l m : List Char) (h : ∀ c ∈ l, c ≠ '<') :
    hasLtS (l ++ m) = hasLtS m := by
  induction l with
  | nil => rfl
  | cons a l' ih =>
    rw [List.cons_append, hasLtS_cons a _ (h a (by simp))]
    exact ih (fun c hc => h c (by simp [hc]))

/-- A list containing the two-character sequence `<s` is flagged. -/
lemma hasLtS_of_shape (l r : List Char) : hasLtS (l ++ '<' :: 's' :: r) = true := by
  induction l with
  | nil => rfl
  | cons a l' ih =>
    cases hl : l' ++ '<' :: 's' :: r with
    | nil => exact absurd hl (by simp)
    | cons b rest =>
      rw [List.cons_append, hl]
      show ((a = '<' && b = 's') || hasLtS (b :: rest)) = true
      rw [← hl, ih]
      simp

/-- The rendered page contains no `<` followed by `s`: its only `<`
characters are those of the fixed `<p>` and `</p>` tags. -/
lemma hasLtS_html (s : List Char) :
    hasLtS ('<' :: 'p' :: '>' :: '\n' :: (escapeText s ++ "</p>\n".data)) = false := by
  have h0 : hasLtS ('<' :: 'p' :: '>' :: '\n' :: (escapeText s ++ "</p>\n".data)) =
      hasLtS ('p' :: '>' :: '\n' :: (escapeText s ++ "</p>\n".data)) := by
    show ((('<' : Char) = '<' && ('p' : Char) = 's') ||
      hasLtS ('p' :: '>' :: '\n' :: (escapeText s ++ "</p>\n".data))) = _
    simp
  rw [h0, hasLtS_cons 'p' _ (by decide), hasLtS_cons '>' _ (by decide),
    hasLtS_cons '\n' _ (by decide),
    hasLtS_append _ _ (fun c hc => by
      intro he
      subst he
      exact lt_not_mem_escapeText s hc)]
  rfl

/-- C5: HTML rendering never emits unescaped angle brackets from the raw
text (the escaped text contains neither `<` nor `>`), the rendered page
never contains a literal `<script>` element, and a raw text containing
`<b>` renders as escaped text rather than live markup. -/
theorem docHTML_escapes_markup (d : Doc) :
    ('<' ∉ escapeText d.raw.data ∧ '>' ∉ escapeText d.raw.data) ∧
    (¬ ∃ l r, (Doc.HTML d).data = l ++ "<script>".data ++ r) ∧
    Doc.HTML ⟨"<b>"⟩ = "<p>\n&lt;b&gt;</p>\n" := by
  refine ⟨⟨lt_not_mem_escapeText _, gt_not_mem_escapeText _⟩, ?_, rfl⟩
  rintro ⟨l, r, hl⟩
  have hdata : "<script>".data = '<' :: 's' :: "cript>".data := rfl
  have h2 : hasLtS ((Doc.HTML d).data) = true := by
    rw [hl, hdata]
    have hassoc : l ++ ('<' :: 's' :: "cript>".data) ++ r =
        l ++ '<' :: 's' :: ("cript>".data ++ r) := by
      simp
    rw [hassoc, hasLtS_of_shape]
  have h1 : hasLtS ((Doc.HTML d).data) = false := hasLtS_html d.raw.data
  rw [h1] at h2
  cases h2

/-! Claim theorems about canonical declaration rendering. -/

/-- The splitter never produces the empty list of chunks. -/
lemma splitSp_ne_nil (l : List Char) : splitSp l ≠ [] := by
  cases l with
  | nil => simp [splitSp]
  | cons c cs =>
    simp only [splitSp]
    split
    · simp
    · split <;> simp

/-- A space-free text splits into one single chunk. -/
lemma splitSp_no_space (t : List Char) (h : ∀ c ∈ t, c ≠ ' ') :
    splitSp t = [t] := by
  induction t with
  | nil => rfl
  | cons c cs ih =>
    have hc : c ≠ ' ' := h c (by simp)
    have ih' := ih (fun d hd => h d (by simp [hd]))
    simp only [splitSp]
    rw [if_neg hc, ih']

/-- Splitting a space-free chunk, a space, and a rest. -/
lemma splitSp_append (t rest : List Char) (h : ∀ c ∈ t, c ≠ ' ') :
    splitSp (t ++ ' ' :: rest) = t :: splitSp rest := by
  induction t with
  | nil => simp [splitSp]
  | cons c cs ih =>
    have hc : c ≠ ' ' := h c (by simp)
    have ih' := ih (fun d hd => h d (by simp [hd]))
    rw [List.cons_append]
    simp only [splitSp]
    rw [if_neg hc, ih']

/-- Tokenizing the single-space join of well-formed tokens recovers them. -/
lemma tokenize_joinTokens : ∀ (v : List (List Char)),
    (∀ t ∈ v, t ≠ [] ∧ ∀ c ∈ t, c ≠ ' ') →
    (splitSp (joinTokens v)).filter (fun t => t ≠ []) = v := by
  intro v
  induction v with
  | nil => intro _; rfl
  | cons t v' ih =>
    intro h
    have ht := h t (by simp)
    cases v' with
    | nil =>
      rw [show joinTokens [t] = t from rfl, splitSp_no_space t ht.2,
        List.filter_cons]
      simp [ht.1]
    | cons t' v'' =>
      have hrest : ∀ u ∈ t' :: v'', u ≠ [] ∧ ∀ c ∈ u, c ≠ ' ' :=
        fun u hu => h u (by simp [hu])
      rw [show joinTokens (t :: t' :: v'') = t ++ ' ' :: joinTokens (t' :: v'')
          from rfl,
        splitSp_append t _ ht.2, List.filter_cons,
        if_pos (show (decide ¬t = []) = true by simp [ht.1]), ih hrest]

/-- C7: canonical declaration rendering is deterministic and idempotent:
rendering a well-formed declaration node with any position tables yields
byte-identical text, re-parsing the canonical text recovers the node, and
re-rendering the re-parsed node yields the same text again. -/
theorem decl_deterministic_and_idempotent (v : DeclNode) (fset fset' : FileSet)
    (h : WellFormedDecl v) :
    decl v fset = decl v fset' ∧
    parseDecl (decl v fset) = v ∧
    decl (parseDecl (decl v fset)) fset' = decl v fset := by
  have hp : parseDecl (decl v fset) = v := tokenize_joinTokens v h
  exact ⟨rfl, hp, by rw [hp]⟩

/-- Witness for C7 at the node of `func Foo() string`. -/
theorem decl_deterministic_and_idempotent_witness :
    WellFormedDecl vDecl ∧
    (decl vDecl ⟨⟩ = decl vDecl ⟨⟩ ∧
      parseDecl (decl vDecl ⟨⟩) = vDecl ∧
      decl (parseDecl (decl vDecl ⟨⟩)) ⟨⟩ = decl vDecl ⟨⟩) :=
  ⟨by decide, decl_deterministic_and_idempotent vDecl ⟨⟩ ⟨⟩ (by decide)⟩

end Pkgdoc
